import Mathlib

set_option linter.unusedSectionVars false
set_option linter.unusedVariables false

/- Shallow embedding of the Aintivirus tokenomics simulation engine
(src/ainti.py, lines 70-105): a day-by-day recurrence computing token
price and remaining supply under a multiplicative burn feedback model.
The arithmetic is carried out in an arbitrary linear ordered field (the
Python code uses IEEE floats; we idealise to exact field arithmetic),
and the infinite-price branch of line 87
(`... if supply > 0 else float("inf")`) is modelled as failure of the
whole simulation (`Option.none`), since a record holding an infinite
price has no counterpart in a field. -/

/-- A service with a burn rate and a daily dollar volume
(src/ainti.py lines 28-40, 49-59). -/
structure Service (α : Type) where
  name : String
  burn_rate : α
  daily_volume : α

/-- The parameters of one simulation run.  `growth_factor` holds the
value the script computes once on line 73 from
`yearly_price_change_pct`; over `ℝ` it is `daily_growth_factor pct`
below. -/
structure SimConfig (α : Type) where
  initial_price : α
  growth_factor : α
  horizon_days : ℕ
  fixed_supply : α
  services : List (Service α)

/-- One row of the output table (src/ainti.py lines 101-105 and the
per-service columns of lines 94, 118-119). -/
structure DailyRecord (α : Type) where
  day : ℕ
  price_no_burn : α
  price_with_burn : α
  remaining_supply : α
  daily_burned_total : α
  cumulative_burned : α
  service_burns : List (String × α)

variable {α : Type} [LinearOrderedField α]

/-- Line 73: `daily_growth_factor = (1 + price_change_pct / 100) ** (1 / 365)`. -/
noncomputable def daily_growth_factor (pct : ℝ) : ℝ :=
  (1 + pct / 100) ^ ((1 : ℝ) / 365)

/-- Line 86: `price_no_burn_today = initial_market_price * (daily_growth_factor ** day)`. -/
def priceNoBurn (cfg : SimConfig α) (day : ℕ) : α :=
  cfg.initial_price * cfg.growth_factor ^ day

/-- Line 87 (the `supply > 0` branch):
`price_with_burn_today = price_no_burn_today * (FIXED_SUPPLY / supply)`. -/
def priceWithBurn (cfg : SimConfig α) (day : ℕ) (supply : α) : α :=
  priceNoBurn cfg day * (cfg.fixed_supply / supply)

/-- Lines 90-94: the per-service burn amounts of one day, in service
order: `burn_amount = (volume * burn_rate) / price_with_burn_today`. -/
def serviceBurns (services : List (Service α)) (price : α) : List (String × α) :=
  services.map fun sv => (sv.name, sv.daily_volume * sv.burn_rate / price)

/-- Lines 89-93: `burned_today_total` accumulated by repeated addition
starting from `0`, in service order. -/
def burnedTotal (services : List (Service α)) (price : α) : α :=
  (serviceBurns services price).foldl (fun acc b => acc + b.2) 0

/-- Lines 86-105 for a single day: the emitted record, given the running
supply at the start of the day and the cumulative burn so far.  The
recorded `remaining_supply` is the clamped post-burn supply of lines
96-97 (`supply = max(supply - burned_today_total, 1)`), and
`cumulative_burned` is the nominal accumulation of line 99. -/
def mkRecord (cfg : SimConfig α) (day : ℕ) (supply cumBurn : α) : DailyRecord α :=
  ⟨day,
   priceNoBurn cfg day,
   priceWithBurn cfg day supply,
   max (supply - burnedTotal cfg.services (priceWithBurn cfg day supply)) 1,
   burnedTotal cfg.services (priceWithBurn cfg day supply),
   cumBurn + burnedTotal cfg.services (priceWithBurn cfg day supply),
   serviceBurns cfg.services (priceWithBurn cfg day supply)⟩

/-- The simulation loop of lines 85-105, by fuel: `n` days remain, the
next day index is `day`, the running supply is `supply` and the
cumulative burn so far is `cumBurn`.  A non-positive running supply
takes the infinite-price branch of line 87, modelled as `none`. -/
def simLoop (cfg : SimConfig α) : ℕ → ℕ → α → α → Option (List (DailyRecord α))
  | 0, _, _, _ => some []
  | n + 1, day, supply, cumBurn =>
    if 0 < supply then
      Option.map
        (fun rs => mkRecord cfg day supply cumBurn :: rs)
        (simLoop cfg n (day + 1)
          (mkRecord cfg day supply cumBurn).remaining_supply
          (mkRecord cfg day supply cumBurn).cumulative_burned)
    else
      none

/-- Lines 70-105 as a whole: days 1..horizon, starting supply
`FIXED_SUPPLY` (line 71) and cumulative burn `0` (line 83). -/
def simulate (cfg : SimConfig α) : Option (List (DailyRecord α)) :=
  simLoop cfg cfg.horizon_days 1 cfg.fixed_supply 0

/-- The running supply seen at the start of the day recorded at index
`j` of the output: the base supply for `j = 0`, and the previous
record's `remaining_supply` otherwise. -/
def prevVal (f : DailyRecord α → α) (base : α) (rs : List (DailyRecord α)) : ℕ → α
  | 0 => base
  | j + 1 =>
    match rs[j]? with
    | some r => f r
    | none => base

/-- The domain constraints of spec section 4.1 on the services:
`burn_rate` in `[0,1]`, `daily_volume` non-negative. -/
def ValidServices (services : List (Service α)) : Prop :=
  ∀ sv ∈ services, 0 ≤ sv.burn_rate ∧ sv.burn_rate ≤ 1 ∧ 0 ≤ sv.daily_volume

/-- The domain constraints of spec section 4.1 on a config:
`initial_price > 0`, `fixed_supply > 0`, valid services, and a positive
daily growth factor (which holds for every `yearly_price_change_pct`
above `-100`, so in particular on the documented range `-50..200`). -/
def ValidConfig (cfg : SimConfig α) : Prop :=
  0 < cfg.initial_price ∧ 0 < cfg.growth_factor ∧ 0 < cfg.fixed_supply ∧
    ValidServices cfg.services

lemma daily_growth_factor_zero : daily_growth_factor 0 = 1 := by
  have h : (1 : ℝ) + 0 / 100 = 1 := by norm_num
  rw [daily_growth_factor, h, Real.one_rpow]

lemma daily_growth_factor_pos {pct : ℝ} (h : -100 < pct) :
    0 < daily_growth_factor pct := by
  have hb : (0 : ℝ) < 1 + pct / 100 := by linarith
  exact Real.rpow_pos_of_pos hb _

lemma foldl_add_snd (l : List (String × α)) (a : α) :
    l.foldl (fun acc b => acc + b.2) a = a + (l.map Prod.snd).sum := by
  induction l generalizing a with
  | nil => simp
  | cons x xs ih => simp [List.foldl_cons, ih (a + x.2), add_assoc]

lemma burnedTotal_eq_sum (services : List (Service α)) (price : α) :
    burnedTotal services price =
      ((serviceBurns services price).map Prod.snd).sum := by
  rw [burnedTotal, foldl_add_snd, zero_add]

lemma burnedTotal_nonneg {services : List (Service α)} {price : α}
    (hs : ValidServices services) (hp : 0 ≤ price) :
    0 ≤ burnedTotal services price := by
  rw [burnedTotal_eq_sum]
  apply List.sum_nonneg
  intro x hx
  rw [serviceBurns, List.map_map] at hx
  obtain ⟨sv, hsv, rfl⟩ := List.mem_map.1 hx
  have h := hs sv hsv
  exact div_nonneg (mul_nonneg h.2.2 h.1) hp

lemma priceNoBurn_pos {cfg : SimConfig α} (hp : 0 < cfg.initial_price)
    (hg : 0 < cfg.growth_factor) (day : ℕ) : 0 < priceNoBurn cfg day :=
  mul_pos hp (pow_pos hg day)

lemma priceWithBurn_pos {cfg : SimConfig α} (hp : 0 < cfg.initial_price)
    (hg : 0 < cfg.growth_factor) (hf : 0 < cfg.fixed_supply)
    {supply : α} (hs : 0 < supply) (day : ℕ) :
    0 < priceWithBurn cfg day supply :=
  mul_pos (priceNoBurn_pos hp hg day) (div_pos hf hs)

lemma mkRecord_remaining_ge_one (cfg : SimConfig α) (day : ℕ) (s c : α) :
    1 ≤ (mkRecord cfg day s c).remaining_supply :=
  le_max_right _ _

lemma mkRecord_remaining_pos (cfg : SimConfig α) (day : ℕ) (s c : α) :
    0 < (mkRecord cfg day s c).remaining_supply :=
  lt_of_lt_of_le zero_lt_one (mkRecord_remaining_ge_one cfg day s c)

lemma simLoop_zero (cfg : SimConfig α) (day : ℕ) (s c : α) :
    simLoop cfg 0 day s c = some [] := rfl

lemma simLoop_succ_pos (cfg : SimConfig α) (n day : ℕ) (s c : α) (hs : 0 < s) :
    simLoop cfg (n + 1) day s c =
      Option.map (fun rs => mkRecord cfg day s c :: rs)
        (simLoop cfg n (day + 1)
          (mkRecord cfg day s c).remaining_supply
          (mkRecord cfg day s c).cumulative_burned) := by
  rw [simLoop, if_pos hs]

lemma simLoop_succ_some {cfg : SimConfig α} {n day : ℕ} {s c : α}
    {rs : List (DailyRecord α)} (h : simLoop cfg (n + 1) day s c = some rs) :
    0 < s ∧ ∃ rs', rs = mkRecord cfg day s c :: rs' ∧
      simLoop cfg n (day + 1) (mkRecord cfg day s c).remaining_supply
        (mkRecord cfg day s c).cumulative_burned = some rs' := by
  by_cases hs : 0 < s
  · rw [simLoop_succ_pos cfg n day s c hs] at h
    rcases ho : simLoop cfg n (day + 1) (mkRecord cfg day s c).remaining_supply
        (mkRecord cfg day s c).cumulative_burned with _ | rs'
    · rw [ho] at h
      simp at h
    · rw [ho] at h
      simp only [Option.map_some', Option.some.injEq] at h
      exact ⟨hs, rs', h.symm, rfl⟩
  · rw [simLoop, if_neg hs] at h
    simp at h

lemma simLoop_length {cfg : SimConfig α} :
    ∀ {n day : ℕ} {s c : α} {rs : List (DailyRecord α)},
      simLoop cfg n day s c = some rs → rs.length = n := by
  intro n
  induction n with
  | zero =>
    intro day s c rs h
    simp only [simLoop_zero, Option.some.injEq] at h
    subst h
    rfl
  | succ m ih =>
    intro day s c rs h
    obtain ⟨_, rs', rfl, h'⟩ := simLoop_succ_some h
    simp [ih h']

lemma simLoop_isSome (cfg : SimConfig α) :
    ∀ (n day : ℕ) (s c : α), 0 < s → ∃ rs, simLoop cfg n day s c = some rs := by
  intro n
  induction n with
  | zero => exact fun day s c _ => ⟨[], rfl⟩
  | succ m ih =>
    intro day s c hs
    obtain ⟨rs', h'⟩ := ih (day + 1) (mkRecord cfg day s c).remaining_supply
      (mkRecord cfg day s c).cumulative_burned (mkRecord_remaining_pos cfg day s c)
    refine ⟨mkRecord cfg day s c :: rs', ?_⟩
    rw [simLoop_succ_pos cfg m day s c hs, h']
    rfl

lemma prevVal_zero (f : DailyRecord α → α) (base : α) (rs : List (DailyRecord α)) :
    prevVal f base rs 0 = base := rfl

lemma prevVal_cons {f : DailyRecord α → α} {base : α} (r : DailyRecord α)
    {rs' : List (DailyRecord α)} {j : ℕ} (hj : j < rs'.length) :
    prevVal f base (r :: rs') (j + 1) = prevVal f (f r) rs' j := by
  cases j with
  | zero => simp only [prevVal, List.getElem?_cons_zero]
  | succ k =>
    have hk : k < rs'.length := by omega
    simp only [prevVal, List.getElem?_cons_succ, List.getElem?_eq_getElem hk]

/-- The record at index `i` of a successful run starting at `(day, s, c)`
is exactly the one the loop body builds from the previous record's
state. -/
lemma simLoop_get {cfg : SimConfig α} :
    ∀ {n day : ℕ} {s c : α} {rs : List (DailyRecord α)},
      simLoop cfg n day s c = some rs →
      ∀ (i : ℕ) (h : i < rs.length),
        rs.get ⟨i, h⟩ =
          mkRecord cfg (day + i)
            (prevVal DailyRecord.remaining_supply s rs i)
            (prevVal DailyRecord.cumulative_burned c rs i) := by
  intro n
  induction n with
  | zero =>
    intro day s c rs h i hi
    simp only [simLoop_zero, Option.some.injEq] at h
    subst h
    exact absurd hi (by simp)
  | succ m ih =>
    intro day s c rs h i hi
    obtain ⟨hs, rs', rfl, h'⟩ := simLoop_succ_some h
    cases i with
    | zero => rfl
    | succ j =>
      have hj : j < rs'.length := by
        simpa using hi
      have heq := ih h' j hj
      have hd : day + 1 + j = day + (j + 1) := by omega
      rw [hd] at heq
      have hg : (mkRecord cfg day s c :: rs').get ⟨j + 1, hi⟩ = rs'.get ⟨j, hj⟩ := rfl
      rw [hg, prevVal_cons _ hj, prevVal_cons _ hj]
      exact heq

lemma simLoop_supply_chain {cfg : SimConfig α} (hv : ValidConfig cfg) :
    ∀ {n day : ℕ} {s c : α} {rs : List (DailyRecord α)},
      simLoop cfg n day s c = some rs →
      (∀ r ∈ rs, 1 ≤ r.remaining_supply) ∧
        List.Chain' (fun a b => b ≤ a)
          (max s 1 :: rs.map DailyRecord.remaining_supply) := by
  intro n
  induction n with
  | zero =>
    intro day s c rs h
    simp only [simLoop_zero, Option.some.injEq] at h
    subst h
    exact ⟨by simp, List.chain'_singleton _⟩
  | succ m ih =>
    intro day s c rs h
    obtain ⟨hs, rs', rfl, h'⟩ := simLoop_succ_some h
    obtain ⟨hmem, hchain⟩ := ih h'
    obtain ⟨hp, hg, hf, hsv⟩ := hv
    have hpw : 0 < priceWithBurn cfg day s := priceWithBurn_pos hp hg hf hs day
    have hbt : 0 ≤ burnedTotal cfg.services (priceWithBurn cfg day s) :=
      burnedTotal_nonneg hsv (le_of_lt hpw)
    have hr1 : 1 ≤ (mkRecord cfg day s c).remaining_supply :=
      mkRecord_remaining_ge_one cfg day s c
    have hrle : (mkRecord cfg day s c).remaining_supply ≤ max s 1 :=
      max_le_max (sub_le_self s hbt) le_rfl
    constructor
    · intro r hr
      rcases List.mem_cons.1 hr with rfl | hr
      · exact hr1
      · exact hmem r hr
    · rw [List.map_cons, List.chain'_cons]
      refine ⟨hrle, ?_⟩
      rw [max_eq_left hr1] at hchain
      exact hchain

lemma simLoop_cum_chain {cfg : SimConfig α} (hv : ValidConfig cfg) :
    ∀ {n day : ℕ} {s c : α} {rs : List (DailyRecord α)},
      simLoop cfg n day s c = some rs →
      List.Chain' (fun a b => a ≤ b)
        (c :: rs.map DailyRecord.cumulative_burned) := by
  intro n
  induction n with
  | zero =>
    intro day s c rs h
    simp only [simLoop_zero, Option.some.injEq] at h
    subst h
    exact List.chain'_singleton _
  | succ m ih =>
    intro day s c rs h
    obtain ⟨hs, rs', rfl, h'⟩ := simLoop_succ_some h
    obtain ⟨hp, hg, hf, hsv⟩ := hv
    have hpw : 0 < priceWithBurn cfg day s := priceWithBurn_pos hp hg hf hs day
    have hbt : 0 ≤ burnedTotal cfg.services (priceWithBurn cfg day s) :=
      burnedTotal_nonneg hsv (le_of_lt hpw)
    rw [List.map_cons, List.chain'_cons]
    exact ⟨le_add_of_nonneg_right hbt, ih h'⟩

lemma mkRecord_remaining_eq {cfg : SimConfig α} {day : ℕ} {s c : α}
    (h : 1 ≤ s - (mkRecord cfg day s c).daily_burned_total) :
    (mkRecord cfg day s c).remaining_supply
      = s - (mkRecord cfg day s c).daily_burned_total :=
  max_eq_left h

lemma mkRecord_cum_def (cfg : SimConfig α) (day : ℕ) (s c : α) :
    (mkRecord cfg day s c).cumulative_burned
      = c + (mkRecord cfg day s c).daily_burned_total := rfl

/-- While the floor clamp has never triggered, the cumulative burn
accounts exactly for the supply reduction. -/
lemma simLoop_cum_eq {cfg : SimConfig α} :
    ∀ {n day : ℕ} {s c : α} {rs : List (DailyRecord α)},
      simLoop cfg n day s c = some rs →
      c = cfg.fixed_supply - s →
      ∀ (i : ℕ) (h : i < rs.length),
        (∀ (j : ℕ) (hj : j ≤ i),
            1 ≤ prevVal DailyRecord.remaining_supply s rs j -
              (rs.get ⟨j, lt_of_le_of_lt hj h⟩).daily_burned_total) →
        (rs.get ⟨i, h⟩).cumulative_burned =
          cfg.fixed_supply - (rs.get ⟨i, h⟩).remaining_supply := by
  intro n
  induction n with
  | zero =>
    intro day s c rs h hc i hi
    simp only [simLoop_zero, Option.some.injEq] at h
    subst h
    exact absurd hi (by simp)
  | succ m ih =>
    intro day s c rs h hc i hi hnc
    obtain ⟨hs, rs', rfl, h'⟩ := simLoop_succ_some h
    have hbt : 1 ≤ s - (mkRecord cfg day s c).daily_burned_total :=
      hnc 0 (Nat.zero_le i)
    have hrem := mkRecord_remaining_eq hbt
    have hcum : (mkRecord cfg day s c).cumulative_burned
        = cfg.fixed_supply - (mkRecord cfg day s c).remaining_supply := by
      rw [mkRecord_cum_def, hrem, hc]
      ring
    cases i with
    | zero => exact hcum
    | succ j =>
      have hj : j < rs'.length := by simpa using hi
      have harg : ∀ (j' : ℕ) (hj' : j' ≤ j),
          1 ≤ prevVal DailyRecord.remaining_supply
                (mkRecord cfg day s c).remaining_supply rs' j' -
              (rs'.get ⟨j', lt_of_le_of_lt hj' hj⟩).daily_burned_total := by
        intro j' hj'
        have hlt : j' < rs'.length := lt_of_le_of_lt hj' hj
        have hstep := hnc (j' + 1) (Nat.succ_le_succ hj')
        rw [prevVal_cons _ hlt] at hstep
        exact hstep
      exact ih h' hcum j hj harg

/-- C2: for every valid config the recorded `remaining_supply` values
are non-increasing from day to day, and every recorded value is at
least `1` (the floor clamp of line 97). -/
theorem supply_nonincreasing_and_floored (cfg : SimConfig α) (hv : ValidConfig cfg) :
    ∃ rs, simulate cfg = some rs ∧
      List.Chain' (fun a b => b ≤ a) (rs.map DailyRecord.remaining_supply) ∧
      ∀ r ∈ rs, 1 ≤ r.remaining_supply := by
  obtain ⟨rs, hrs⟩ := simLoop_isSome cfg cfg.horizon_days 1 cfg.fixed_supply 0 hv.2.2.1
  obtain ⟨hmem, hchain⟩ := simLoop_supply_chain hv hrs
  exact ⟨rs, hrs, hchain.tail, hmem⟩

/-- C3: the cumulative burn is non-decreasing, and on every day up to
which the floor clamp has never triggered it equals
`fixed_supply - remaining_supply`. -/
theorem cumulative_burned_accounting (cfg : SimConfig α) (hv : ValidConfig cfg) :
    ∃ rs, simulate cfg = some rs ∧
      List.Chain' (fun a b => a ≤ b) (rs.map DailyRecord.cumulative_burned) ∧
      ∀ (i : ℕ) (h : i < rs.length),
        (∀ (j : ℕ) (hj : j ≤ i),
            1 ≤ prevVal DailyRecord.remaining_supply cfg.fixed_supply rs j -
              (rs.get ⟨j, lt_of_le_of_lt hj h⟩).daily_burned_total) →
        (rs.get ⟨i, h⟩).cumulative_burned =
          cfg.fixed_supply - (rs.get ⟨i, h⟩).remaining_supply := by
  obtain ⟨rs, hrs⟩ := simLoop_isSome cfg cfg.horizon_days 1 cfg.fixed_supply 0 hv.2.2.1
  refine ⟨rs, hrs, (simLoop_cum_chain hv hrs).tail, ?_⟩
  exact simLoop_cum_eq hrs (by ring)

/-- C4: a successful run has exactly `horizon_days` records, with day
indices `1, 2, ..., horizon_days` in order, and a zero horizon yields
the empty sequence without failing. -/
theorem simulate_length_days (cfg : SimConfig α) (hf : 0 < cfg.fixed_supply) :
    ∃ rs, simulate cfg = some rs ∧ rs.length = cfg.horizon_days ∧
      (∀ (i : ℕ) (h : i < rs.length), (rs.get ⟨i, h⟩).day = i + 1) ∧
      (cfg.horizon_days = 0 → rs = []) := by
  obtain ⟨rs, hrs⟩ := simLoop_isSome cfg cfg.horizon_days 1 cfg.fixed_supply 0 hf
  have hlen := simLoop_length hrs
  refine ⟨rs, hrs, hlen, ?_, ?_⟩
  · intro i h
    rw [simLoop_get hrs i h]
    show 1 + i = i + 1
    omega
  · intro h0
    rw [h0] at hlen
    exact List.length_eq_zero.1 hlen

/-- C5: each day's recorded total burn is exactly the sum of the
recorded per-service burns, and the per-service burns are
`volume * burn_rate / price_with_burn` in service order. -/
theorem daily_total_eq_sum_services (cfg : SimConfig α) (hv : ValidConfig cfg) :
    ∃ rs, simulate cfg = some rs ∧
      ∀ (i : ℕ) (h : i < rs.length),
        (rs.get ⟨i, h⟩).service_burns =
          cfg.services.map
            (fun sv => (sv.name,
              sv.daily_volume * sv.burn_rate / (rs.get ⟨i, h⟩).price_with_burn)) ∧
        (rs.get ⟨i, h⟩).daily_burned_total =
          ((rs.get ⟨i, h⟩).service_burns.map Prod.snd).sum := by
  obtain ⟨rs, hrs⟩ := simLoop_isSome cfg cfg.horizon_days 1 cfg.fixed_supply 0 hv.2.2.1
  refine ⟨rs, hrs, ?_⟩
  intro i h
  rw [simLoop_get hrs i h]
  exact ⟨rfl, burnedTotal_eq_sum _ _⟩

/-- A concrete configuration over the rationals used to witness the
general theorems: two of the script's services, three days. -/
def exampleConfig : SimConfig ℚ :=
  ⟨1, 1, 3, 100000000, [⟨"Mixer", 1/50, 25000⟩, ⟨"Merch-Shop", 1/5, 5000⟩]⟩

lemma exampleConfig_valid : ValidConfig exampleConfig := by
  refine ⟨by norm_num [exampleConfig], by norm_num [exampleConfig],
    by norm_num [exampleConfig], ?_⟩
  intro sv hsv
  simp only [exampleConfig, List.mem_cons, List.not_mem_nil, or_false] at hsv
  rcases hsv with rfl | rfl <;> norm_num

/-- C1: each day's record prices obey the spec recurrence, with the
growth factor computed by real exponentiation from the yearly
percentage, and the scarcity premium computed from the supply at the
end of the previous day. -/
theorem price_recurrence_spec (cfg : SimConfig ℝ) (pct : ℝ)
    (hv : ValidConfig cfg) (hg : cfg.growth_factor = daily_growth_factor pct) :
    ∃ rs, simulate cfg = some rs ∧
      ∀ (i : ℕ) (h : i < rs.length),
        (rs.get ⟨i, h⟩).day = i + 1 ∧
        (rs.get ⟨i, h⟩).price_no_burn
            = cfg.initial_price * daily_growth_factor pct ^ (i + 1) ∧
        (rs.get ⟨i, h⟩).price_with_burn
            = (rs.get ⟨i, h⟩).price_no_burn *
                (cfg.fixed_supply /
                  prevVal DailyRecord.remaining_supply cfg.fixed_supply rs i) := by
  obtain ⟨rs, hrs⟩ := simLoop_isSome cfg cfg.horizon_days 1 cfg.fixed_supply 0 hv.2.2.1
  refine ⟨rs, hrs, ?_⟩
  intro i h
  rw [simLoop_get hrs i h]
  refine ⟨by show 1 + i = i + 1; omega, ?_, rfl⟩
  show cfg.initial_price * cfg.growth_factor ^ (1 + i)
      = cfg.initial_price * daily_growth_factor pct ^ (i + 1)
  rw [hg, Nat.add_comm 1 i]

lemma simLoop_price_ge {cfg : SimConfig α} (hv : ValidConfig cfg)
    (hfs1 : 1 ≤ cfg.fixed_supply) :
    ∀ {n day : ℕ} {s c : α} {rs : List (DailyRecord α)},
      simLoop cfg n day s c = some rs →
      1 ≤ s → s ≤ cfg.fixed_supply →
      ∀ r ∈ rs, r.price_no_burn ≤ r.price_with_burn := by
  intro n
  induction n with
  | zero =>
    intro day s c rs h _ _ r hr
    simp only [simLoop_zero, Option.some.injEq] at h
    subst h
    exact absurd hr (List.not_mem_nil r)
  | succ m ih =>
    intro day s c rs h h1 hle r hr
    obtain ⟨hs, rs', rfl, h'⟩ := simLoop_succ_some h
    obtain ⟨hp, hg, hf, hsv⟩ := hv
    have hpw : 0 < priceWithBurn cfg day s := priceWithBurn_pos hp hg hf hs day
    have hbt : 0 ≤ burnedTotal cfg.services (priceWithBurn cfg day s) :=
      burnedTotal_nonneg hsv (le_of_lt hpw)
    rcases List.mem_cons.1 hr with rfl | hr
    · show priceNoBurn cfg day ≤ priceNoBurn cfg day * (cfg.fixed_supply / s)
      have hpn : 0 < priceNoBurn cfg day := priceNoBurn_pos hp hg day
      have hq : 1 ≤ cfg.fixed_supply / s := (one_le_div hs).2 hle
      exact le_mul_of_one_le_right hpn.le hq
    · refine ih h' (mkRecord_remaining_ge_one cfg day s c) ?_ r hr
      have hsub : s - burnedTotal cfg.services (priceWithBurn cfg day s)
          ≤ cfg.fixed_supply := le_trans (sub_le_self s hbt) hle
      exact max_le hsub hfs1

/-- C10: the burn-adjusted price is never below the no-burn price,
because the running supply never exceeds the fixed supply. -/
theorem price_with_burn_ge_no_burn (cfg : SimConfig α) (hv : ValidConfig cfg)
    (hfs : 1 ≤ cfg.fixed_supply) :
    ∃ rs, simulate cfg = some rs ∧
      ∀ r ∈ rs, r.price_no_burn ≤ r.price_with_burn := by
  obtain ⟨rs, hrs⟩ := simLoop_isSome cfg cfg.horizon_days 1 cfg.fixed_supply 0 hv.2.2.1
  exact ⟨rs, hrs, simLoop_price_ge hv hfs hrs hfs le_rfl⟩

/-- C9: the running supply is positive at the start of every day, so
the infinite-price branch is never taken (the run succeeds) and both
divisors of the loop body, the running supply and the burn-adjusted
price, are strictly positive. -/
theorem supply_positive_no_div_by_zero (cfg : SimConfig α) (hv : ValidConfig cfg)
    (hfs : 1 ≤ cfg.fixed_supply) :
    ∃ rs, simulate cfg = some rs ∧
      ∀ (i : ℕ) (h : i < rs.length),
        0 < prevVal DailyRecord.remaining_supply cfg.fixed_supply rs i ∧
        0 < (rs.get ⟨i, h⟩).price_with_burn := by
  obtain ⟨rs, hrs⟩ := simLoop_isSome cfg cfg.horizon_days 1 cfg.fixed_supply 0 hv.2.2.1
  obtain ⟨hmem, _⟩ := simLoop_supply_chain hv hrs
  refine ⟨rs, hrs, ?_⟩
  intro i h
  have hprev : 0 < prevVal DailyRecord.remaining_supply cfg.fixed_supply rs i := by
    cases i with
    | zero => exact hv.2.2.1
    | succ j =>
      have hj : j < rs.length := by omega
      have hval : prevVal DailyRecord.remaining_supply cfg.fixed_supply rs (j + 1)
          = (rs.get ⟨j, hj⟩).remaining_supply := by
        simp only [prevVal, List.getElem?_eq_getElem hj]
        rfl
      rw [hval]
      exact lt_of_lt_of_le zero_lt_one (hmem _ (List.get_mem rs j hj))
  refine ⟨hprev, ?_⟩
  rw [simLoop_get hrs i h]
  exact priceWithBurn_pos hv.1 hv.2.1 hv.2.2.1 hprev _

lemma burnedTotal_zero_of_vol {services : List (Service α)}
    (h0 : ∀ sv ∈ services, sv.daily_volume = 0) (price : α) :
    burnedTotal services price = 0 := by
  rw [burnedTotal_eq_sum]
  apply List.sum_eq_zero
  intro x hx
  rw [serviceBurns, List.map_map] at hx
  obtain ⟨sv, hsv, rfl⟩ := List.mem_map.1 hx
  simp [h0 sv hsv]

/-- With all volumes zero and `fixed_supply ≥ 1` the running supply, if
started at the fixed supply, never moves, and the scarcity premium is
exactly `1`. -/
lemma simLoop_zero_volume {cfg : SimConfig α} (hv : ValidConfig cfg)
    (h0 : ∀ sv ∈ cfg.services, sv.daily_volume = 0) (hfs : 1 ≤ cfg.fixed_supply) :
    ∀ {n day : ℕ} {c : α} {rs : List (DailyRecord α)},
      simLoop cfg n day cfg.fixed_supply c = some rs →
      ∀ r ∈ rs, r.remaining_supply = cfg.fixed_supply ∧
        r.price_with_burn = r.price_no_burn := by
  intro n
  induction n with
  | zero =>
    intro day c rs h r hr
    simp only [simLoop_zero, Option.some.injEq] at h
    subst h
    exact absurd hr (List.not_mem_nil r)
  | succ m ih =>
    intro day c rs h r hr
    obtain ⟨hs, rs', rfl, h'⟩ := simLoop_succ_some h
    have hb0 : burnedTotal cfg.services (priceWithBurn cfg day cfg.fixed_supply) = 0 :=
      burnedTotal_zero_of_vol h0 _
    have hrem : (mkRecord cfg day cfg.fixed_supply c).remaining_supply
        = cfg.fixed_supply := by
      show max (cfg.fixed_supply -
        burnedTotal cfg.services (priceWithBurn cfg day cfg.fixed_supply)) 1
          = cfg.fixed_supply
      rw [hb0, sub_zero]
      exact max_eq_left hfs
    rcases List.mem_cons.1 hr with rfl | hr
    · refine ⟨hrem, ?_⟩
      show priceWithBurn cfg day cfg.fixed_supply = priceNoBurn cfg day
      rw [priceWithBurn, div_self (ne_of_gt hv.2.2.1), mul_one]
    · rw [hrem] at h'
      exact ih h' r hr

/-- C6: with all service volumes zero the burn-adjusted price equals
the no-burn price and the recorded supply equals the fixed supply every
day; with a zero yearly price change the no-burn price additionally
stays at the initial price. -/
theorem zero_volume_flat (cfg : SimConfig ℝ) (pct : ℝ) (hv : ValidConfig cfg)
    (hg : cfg.growth_factor = daily_growth_factor pct)
    (h0 : ∀ sv ∈ cfg.services, sv.daily_volume = 0)
    (hfs : 1 ≤ cfg.fixed_supply) :
    ∃ rs, simulate cfg = some rs ∧
      (∀ r ∈ rs, r.price_with_burn = r.price_no_burn ∧
        r.remaining_supply = cfg.fixed_supply) ∧
      (pct = 0 → ∀ r ∈ rs, r.price_no_burn = cfg.initial_price) := by
  obtain ⟨rs, hrs⟩ := simLoop_isSome cfg cfg.horizon_days 1 cfg.fixed_supply 0 hv.2.2.1
  refine ⟨rs, hrs, ?_, ?_⟩
  · intro r hr
    obtain ⟨h1, h2⟩ := simLoop_zero_volume hv h0 hfs hrs r hr
    exact ⟨h2, h1⟩
  · intro hpct r hr
    obtain ⟨⟨i, hi⟩, rfl⟩ := List.mem_iff_get.1 hr
    rw [simLoop_get hrs i hi]
    show cfg.initial_price * cfg.growth_factor ^ (1 + i) = cfg.initial_price
    rw [hg, hpct, daily_growth_factor_zero, one_pow, mul_one]

/-- The day-1 scenario of spec section 8: price 1, zero yearly change,
one day, fixed supply 100,000,000, a single service with burn rate 2%
and daily volume 25,000. -/
noncomputable def scenarioOneConfig : SimConfig ℝ :=
  ⟨1, daily_growth_factor 0, 1, 100000000, [⟨"Mixer", 2 / 100, 25000⟩]⟩

/-- C7: the single day-1 record of the scenario config has the exact
values given by the spec. -/
theorem day_one_scenario :
    ∃ r, simulate scenarioOneConfig = some [r] ∧
      r.price_no_burn = 1 ∧ r.price_with_burn = 1 ∧
      r.service_burns = [("Mixer", 500)] ∧
      r.daily_burned_total = 500 ∧
      r.remaining_supply = 99999500 ∧
      r.cumulative_burned = 500 := by
  have hpw : priceWithBurn scenarioOneConfig 1 ((100000000 : ℝ)) = 1 := by
    show (1 : ℝ) * daily_growth_factor 0 ^ 1 * ((100000000 : ℝ) / 100000000) = 1
    rw [daily_growth_factor_zero]
    norm_num
  have hbt : burnedTotal scenarioOneConfig.services 1 = 500 := by
    show (0 : ℝ) + 25000 * (2 / 100) / 1 = 500
    norm_num
  refine ⟨mkRecord scenarioOneConfig 1 100000000 0, ?_, ?_, ?_, ?_, ?_, ?_, ?_⟩
  · show simLoop scenarioOneConfig 1 1 100000000 0
        = some [mkRecord scenarioOneConfig 1 100000000 0]
    rw [simLoop_succ_pos scenarioOneConfig 0 1 100000000 0 (by norm_num), simLoop_zero]
    rfl
  · show (1 : ℝ) * daily_growth_factor 0 ^ 1 = 1
    rw [daily_growth_factor_zero]
    norm_num
  · exact hpw
  · show serviceBurns scenarioOneConfig.services
        (priceWithBurn scenarioOneConfig 1 100000000) = [("Mixer", 500)]
    rw [hpw]
    show [("Mixer", (25000 : ℝ) * (2 / 100) / 1)] = [("Mixer", (500 : ℝ))]
    norm_num
  · show burnedTotal scenarioOneConfig.services
        (priceWithBurn scenarioOneConfig 1 100000000) = 500
    rw [hpw]
    exact hbt
  · show max ((100000000 : ℝ) - burnedTotal scenarioOneConfig.services
        (priceWithBurn scenarioOneConfig 1 100000000)) 1 = 99999500
    rw [hpw, hbt, max_eq_left (by norm_num : (1 : ℝ) ≤ 100000000 - 500)]
    norm_num
  · show (0 : ℝ) + burnedTotal scenarioOneConfig.services
        (priceWithBurn scenarioOneConfig 1 100000000) = 500
    rw [hpw, hbt]
    norm_num

/-- Once the running supply sits at the floor `1`, a single service
with burn rate `1`, volume above `100`, fixed supply `100`, unit price
and unit growth keeps it at `1` forever while the cumulative burn
strictly increases every day. -/
lemma simLoop_freeze {cfg : SimConfig α} {nm : String} {v : α}
    (hp : cfg.initial_price = 1) (hg : cfg.growth_factor = 1)
    (hf : cfg.fixed_supply = 100) (hsv : cfg.services = [⟨nm, 1, v⟩])
    (hv : 100 < v) :
    ∀ (n day : ℕ) (c : α), ∃ rs, simLoop cfg n day 1 c = some rs ∧
      (∀ r ∈ rs, r.remaining_supply = 1) ∧
      List.Chain' (fun a b => a < b)
        (c :: rs.map DailyRecord.cumulative_burned) := by
  have hv0 : (0 : α) < v / 100 := div_pos (lt_trans (by norm_num) hv) (by norm_num)
  have hpw : ∀ day : ℕ, priceWithBurn cfg day 1 = 100 := by
    intro day
    rw [priceWithBurn, priceNoBurn, hp, hg, hf]
    norm_num
  have hbt : ∀ day : ℕ,
      burnedTotal cfg.services (priceWithBurn cfg day 1) = v / 100 := by
    intro day
    rw [hsv, hpw day]
    show (0 : α) + v * 1 / 100 = v / 100
    ring
  have hrem : ∀ (day : ℕ) (c : α), (mkRecord cfg day 1 c).remaining_supply = 1 := by
    intro day c
    show max (1 - burnedTotal cfg.services (priceWithBurn cfg day 1)) 1 = 1
    rw [hbt day]
    exact max_eq_right (by linarith)
  have hcum : ∀ (day : ℕ) (c : α),
      (mkRecord cfg day 1 c).cumulative_burned = c + v / 100 := by
    intro day c
    show c + burnedTotal cfg.services (priceWithBurn cfg day 1) = c + v / 100
    rw [hbt day]
  intro n
  induction n with
  | zero => exact fun day c => ⟨[], rfl, by simp, List.chain'_singleton c⟩
  | succ m ih =>
    intro day c
    obtain ⟨rs', h', hmem', hchain'⟩ :=
      ih (day + 1) ((mkRecord cfg day 1 c).cumulative_burned)
    refine ⟨mkRecord cfg day 1 c :: rs', ?_, ?_, ?_⟩
    · rw [simLoop_succ_pos cfg m day 1 c zero_lt_one, hrem day c, h']
      rfl
    · intro r hr
      rcases List.mem_cons.1 hr with rfl | hr
      · exact hrem day c
      · exact hmem' r hr
    · rw [List.map_cons, List.chain'_cons]
      refine ⟨?_, hchain'⟩
      rw [hcum day c]
      linarith

/-- The clamp scenario of spec section 8: fixed supply 100, zero yearly
change, unit price, one service with burn rate 1 and daily volume `v`. -/
noncomputable def clampConfig (v : ℝ) (n : ℕ) : SimConfig ℝ :=
  ⟨1, daily_growth_factor 0, n, 100, [⟨"Burner", 1, v⟩]⟩

/-- C8: with a day-1 burn above the whole supply, the recorded supply
is exactly 1 on day 1 and on every later day, while the cumulative
burn strictly increases every day starting from 0. -/
theorem floor_clamp_freeze (v : ℝ) (n : ℕ) (hv : 100 < v) :
    ∃ rs, simulate (clampConfig v n) = some rs ∧
      (∀ r ∈ rs, r.remaining_supply = 1) ∧
      List.Chain' (fun a b => a < b)
        ((0 : ℝ) :: rs.map DailyRecord.cumulative_burned) := by
  have hg : (clampConfig v n).growth_factor = 1 := daily_growth_factor_zero
  cases n with
  | zero => exact ⟨[], rfl, by simp, List.chain'_singleton _⟩
  | succ m =>
    have hpw1 : priceWithBurn (clampConfig v (m + 1)) 1 ((100 : ℝ)) = 1 := by
      rw [priceWithBurn, priceNoBurn, hg]
      show (1 : ℝ) * 1 ^ 1 * ((100 : ℝ) / 100) = 1
      norm_num
    have hbt1 : burnedTotal (clampConfig v (m + 1)).services
        (priceWithBurn (clampConfig v (m + 1)) 1 100) = v := by
      rw [hpw1]
      show (0 : ℝ) + v * 1 / 1 = v
      ring
    have hrem1 : (mkRecord (clampConfig v (m + 1)) 1 100 0).remaining_supply = 1 := by
      show max ((100 : ℝ) - burnedTotal (clampConfig v (m + 1)).services
        (priceWithBurn (clampConfig v (m + 1)) 1 100)) 1 = 1
      rw [hbt1]
      exact max_eq_right (by linarith)
    have hcum1 : (mkRecord (clampConfig v (m + 1)) 1 100 0).cumulative_burned = v := by
      show (0 : ℝ) + burnedTotal (clampConfig v (m + 1)).services
        (priceWithBurn (clampConfig v (m + 1)) 1 100) = v
      rw [hbt1]
      ring
    obtain ⟨rs', h', hmem', hchain'⟩ :=
      simLoop_freeze rfl hg rfl rfl hv m 2 v
    refine ⟨mkRecord (clampConfig v (m + 1)) 1 100 0 :: rs', ?_, ?_, ?_⟩
    · show simLoop (clampConfig v (m + 1)) (m + 1) 1 100 0
        = some (mkRecord (clampConfig v (m + 1)) 1 100 0 :: rs')
      rw [simLoop_succ_pos (clampConfig v (m + 1)) m 1 100 0 (by norm_num),
        hrem1, hcum1, h']
      rfl
    · intro r hr
      rcases List.mem_cons.1 hr with rfl | hr
      · exact hrem1
      · exact hmem' r hr
    · rw [List.map_cons, List.chain'_cons]
      refine ⟨?_, ?_⟩
      · rw [hcum1]
        linarith
      · rw [hcum1]
        exact hchain'

lemma exampleConfig_fs_pos : (0 : ℚ) < exampleConfig.fixed_supply := by
  norm_num [exampleConfig]

lemma exampleConfig_fs_ge_one : (1 : ℚ) ≤ exampleConfig.fixed_supply := by
  norm_num [exampleConfig]

lemma scenarioOneConfig_valid : ValidConfig scenarioOneConfig := by
  refine ⟨by norm_num [scenarioOneConfig], ?_, by norm_num [scenarioOneConfig], ?_⟩
  · show (0 : ℝ) < daily_growth_factor 0
    rw [daily_growth_factor_zero]
    norm_num
  · intro sv hsv
    simp only [scenarioOneConfig, List.mem_cons, List.not_mem_nil, or_false] at hsv
    subst hsv
    norm_num

/-- Witness instantiation of the C1 theorem at the concrete scenario
config with a zero yearly change. -/
theorem price_recurrence_spec_witness :
    ValidConfig scenarioOneConfig ∧
      scenarioOneConfig.growth_factor = daily_growth_factor 0 ∧
      (∃ rs, simulate scenarioOneConfig = some rs ∧
        ∀ (i : ℕ) (h : i < rs.length),
          (rs.get ⟨i, h⟩).day = i + 1 ∧
          (rs.get ⟨i, h⟩).price_no_burn
              = scenarioOneConfig.initial_price * daily_growth_factor 0 ^ (i + 1) ∧
          (rs.get ⟨i, h⟩).price_with_burn
              = (rs.get ⟨i, h⟩).price_no_burn *
                  (scenarioOneConfig.fixed_supply /
                    prevVal DailyRecord.remaining_supply
                      scenarioOneConfig.fixed_supply rs i)) :=
  ⟨scenarioOneConfig_valid, rfl,
    price_recurrence_spec scenarioOneConfig 0 scenarioOneConfig_valid rfl⟩

/-- Witness instantiation of the C2 theorem at a concrete config. -/
theorem supply_nonincreasing_and_floored_witness :
    ValidConfig exampleConfig ∧
      (∃ rs, simulate exampleConfig = some rs ∧
        List.Chain' (fun a b => b ≤ a) (rs.map DailyRecord.remaining_supply) ∧
        ∀ r ∈ rs, 1 ≤ r.remaining_supply) :=
  ⟨exampleConfig_valid,
    supply_nonincreasing_and_floored exampleConfig exampleConfig_valid⟩

/-- Witness instantiation of the C3 theorem at a concrete config. -/
theorem cumulative_burned_accounting_witness :
    ValidConfig exampleConfig ∧
      (∃ rs, simulate exampleConfig = some rs ∧
        List.Chain' (fun a b => a ≤ b) (rs.map DailyRecord.cumulative_burned) ∧
        ∀ (i : ℕ) (h : i < rs.length),
          (∀ (j : ℕ) (hj : j ≤ i),
              1 ≤ prevVal DailyRecord.remaining_supply exampleConfig.fixed_supply rs j -
                (rs.get ⟨j, lt_of_le_of_lt hj h⟩).daily_burned_total) →
          (rs.get ⟨i, h⟩).cumulative_burned =
            exampleConfig.fixed_supply - (rs.get ⟨i, h⟩).remaining_supply) :=
  ⟨exampleConfig_valid,
    cumulative_burned_accounting exampleConfig exampleConfig_valid⟩

/-- Witness instantiation of the C4 theorem at a concrete config. -/
theorem simulate_length_days_witness :
    (0 : ℚ) < exampleConfig.fixed_supply ∧
      (∃ rs, simulate exampleConfig = some rs ∧
        rs.length = exampleConfig.horizon_days ∧
        (∀ (i : ℕ) (h : i < rs.length), (rs.get ⟨i, h⟩).day = i + 1) ∧
        (exampleConfig.horizon_days = 0 → rs = [])) :=
  ⟨exampleConfig_fs_pos, simulate_length_days exampleConfig exampleConfig_fs_pos⟩

/-- Witness instantiation of the C5 theorem at a concrete config. -/
theorem daily_total_eq_sum_services_witness :
    ValidConfig exampleConfig ∧
      (∃ rs, simulate exampleConfig = some rs ∧
        ∀ (i : ℕ) (h : i < rs.length),
          (rs.get ⟨i, h⟩).service_burns =
            exampleConfig.services.map
              (fun sv => (sv.name,
                sv.daily_volume * sv.burn_rate / (rs.get ⟨i, h⟩).price_with_burn)) ∧
          (rs.get ⟨i, h⟩).daily_burned_total =
            ((rs.get ⟨i, h⟩).service_burns.map Prod.snd).sum) :=
  ⟨exampleConfig_valid,
    daily_total_eq_sum_services exampleConfig exampleConfig_valid⟩

/-- A config with all service volumes zero, used to witness C6. -/
noncomputable def zeroVolConfig : SimConfig ℝ :=
  ⟨2, daily_growth_factor 0, 3, 100000000, [⟨"Mixer", 1 / 50, 0⟩]⟩

lemma zeroVolConfig_valid : ValidConfig zeroVolConfig := by
  refine ⟨by norm_num [zeroVolConfig], ?_, by norm_num [zeroVolConfig], ?_⟩
  · show (0 : ℝ) < daily_growth_factor 0
    rw [daily_growth_factor_zero]
    norm_num
  · intro sv hsv
    simp only [zeroVolConfig, List.mem_cons, List.not_mem_nil, or_false] at hsv
    subst hsv
    norm_num

lemma zeroVolConfig_vols : ∀ sv ∈ zeroVolConfig.services, sv.daily_volume = 0 := by
  intro sv hsv
  simp only [zeroVolConfig, List.mem_cons, List.not_mem_nil, or_false] at hsv
  subst hsv
  rfl

/-- Witness instantiation of the C6 theorem at a concrete
zero-volume config with a zero yearly change. -/
theorem zero_volume_flat_witness :
    ValidConfig zeroVolConfig ∧
      zeroVolConfig.growth_factor = daily_growth_factor 0 ∧
      (∀ sv ∈ zeroVolConfig.services, sv.daily_volume = 0) ∧
      (1 : ℝ) ≤ zeroVolConfig.fixed_supply ∧
      (∃ rs, simulate zeroVolConfig = some rs ∧
        (∀ r ∈ rs, r.price_with_burn = r.price_no_burn ∧
          r.remaining_supply = zeroVolConfig.fixed_supply) ∧
        ((0 : ℝ) = 0 → ∀ r ∈ rs, r.price_no_burn = zeroVolConfig.initial_price)) :=
  ⟨zeroVolConfig_valid, rfl, zeroVolConfig_vols, by norm_num [zeroVolConfig],
    zero_volume_flat zeroVolConfig 0 zeroVolConfig_valid rfl zeroVolConfig_vols
      (by norm_num [zeroVolConfig])⟩

/-- Witness instantiation of the C8 theorem: volume 20,000, three days. -/
theorem floor_clamp_freeze_witness :
    (100 : ℝ) < 20000 ∧
      (∃ rs, simulate (clampConfig 20000 3) = some rs ∧
        (∀ r ∈ rs, r.remaining_supply = 1) ∧
        List.Chain' (fun a b => a < b)
          ((0 : ℝ) :: rs.map DailyRecord.cumulative_burned)) :=
  ⟨by norm_num, floor_clamp_freeze 20000 3 (by norm_num)⟩

/-- Witness instantiation of the C9 theorem at a concrete config. -/
theorem supply_positive_no_div_by_zero_witness :
    ValidConfig exampleConfig ∧ (1 : ℚ) ≤ exampleConfig.fixed_supply ∧
      (∃ rs, simulate exampleConfig = some rs ∧
        ∀ (i : ℕ) (h : i < rs.length),
          0 < prevVal DailyRecord.remaining_supply exampleConfig.fixed_supply rs i ∧
          0 < (rs.get ⟨i, h⟩).price_with_burn) :=
  ⟨exampleConfig_valid, exampleConfig_fs_ge_one,
    supply_positive_no_div_by_zero exampleConfig exampleConfig_valid
      exampleConfig_fs_ge_one⟩

/-- Witness instantiation of the C10 theorem at a concrete config. -/
theorem price_with_burn_ge_no_burn_witness :
    ValidConfig exampleConfig ∧ (1 : ℚ) ≤ exampleConfig.fixed_supply ∧
      (∃ rs, simulate exampleConfig = some rs ∧
        ∀ r ∈ rs, r.price_no_burn ≤ r.price_with_burn) :=
  ⟨exampleConfig_valid, exampleConfig_fs_ge_one,
    price_with_burn_ge_no_burn exampleConfig exampleConfig_valid
      exampleConfig_fs_ge_one⟩
